import Mathlib

/-!
Shallow embedding of the admin router in `src/app/routers/admin.py`
(erfjab/Marzban): the per-user reconciliation loop of `sync_admin`, and the
bulk-status endpoints `disable_all_active_users` / `activate_all_disabled_users`
together with their fleet restart sweep.

Modelling conventions:

* Python dictionaries keyed by protocol are embedded as functions
  `ProxyTypes → Option α`; Python dict equality is key/value equality with
  insertion order irrelevant, which is exactly function equality here.
* Tag lists stay ordered `List Tag`, as in the source (`ProxyInbound.tag`
  values; Python list equality is ordered element-wise equality).
* CPython's `list(set(a).union(b))` (line 228-229 of the source) has an
  iteration order the language does not specify (it varies with hash
  randomization); it is determinized here as first-occurrence-order
  deduplication of `a ++ b` (`pySetUnion`).  Every positive claim below
  concludes in `isSome` / set-membership / settings-dict terms, which are
  invariant under any realization of that order, and the one counterexample
  (C4) rests on two lists of different lengths, so nothing proved or refuted
  here leans on the particular order chosen.
* The external collaborators (the CRUD store, the xray core and node
  operations, the settings model classes) live outside `src/`; where a claim
  depends on their behaviour they are modelled from the spec, with a
  `Modelled from the spec:` doc comment on the definition.
-/

namespace Marzban

/-- The fixed protocol enumeration (`ProxyTypes` in `app.models.proxy`):
Shadowsocks, VMess, VLESS, Trojan. -/
inductive ProxyTypes where
  | Shadowsocks
  | VMess
  | VLESS
  | Trojan
deriving DecidableEq, Repr

/-- An inbound tag: a string identifying a configured listener. -/
abbrev Tag := String

/-- A Python dict mapping protocols to tag lists (`user.inbounds`,
`allowed_inbounds`). -/
abbrev TagDict := ProxyTypes → Option (List Tag)

/-- A request-body inbound object; the router only reads its `tag` field
(line 213 of the source). -/
structure ProxyInbound where
  tag : Tag
deriving DecidableEq, Repr

/-- User status enumeration (`UserStatus` in `app.models.user`); only
`active` and `on_hold` trigger live propagation (line 257). -/
inductive UserStatus where
  | active
  | disabled
  | on_hold
  | expired
  | limited
deriving DecidableEq, Repr

/-- A protocol-settings payload.  The router treats payloads as opaque values
that are only stored, copied, and compared for equality (lines 234-255), so
they are embedded as an opaque countable type. -/
abbrev Settings := Nat

/-- Modelled from the spec: ProxySettingsFactory's per-protocol default
constructor (`ShadowsocksSettings().dict()` … at lines 242-249 call into
`app.models.proxy`, which is outside `src/`), "producing a valid empty-state
payload".  The payload contents are opaque to the router; only *which*
protocol receives a fresh default matters for the claims. -/
def defaultSettings : ProxyTypes → Settings
  | .Shadowsocks => 100
  | .VMess => 101
  | .VLESS => 102
  | .Trojan => 103

/-- A user row as read by the router: identity, status, the `inbounds` dict,
and the `proxies` relationship (a list of rows, each carrying a protocol type
and a settings payload, read as `p.type.value` / `p.settings` at lines
234-238). -/
structure User where
  id : Nat
  status : UserStatus
  inbounds : TagDict
  proxies : List (ProxyTypes × Settings)

/-- The four protocol values, in declaration order. -/
def allProtocols : List ProxyTypes :=
  [.Shadowsocks, .VMess, .VLESS, .Trojan]

theorem mem_allProtocols (p : ProxyTypes) : p ∈ allProtocols := by
  cases p <;> simp [allProtocols]

/-- First-occurrence-order deduplication, accumulating the elements already
seen.  `pyDedupAux seen l` drops from `l` every element of `seen` and every
repeat of an earlier element of `l`. -/
def pyDedupAux (seen : List Tag) : List Tag → List Tag
  | [] => []
  | t :: ts => if t ∈ seen then pyDedupAux seen ts else t :: pyDedupAux (t :: seen) ts

/-- Deterministic embedding of listing a Python set built by inserting the
elements of `l` in order: keep the first occurrence of each element. -/
def pyDedup (l : List Tag) : List Tag := pyDedupAux [] l

/-- Embedding of `list(set(a).union(b))` (lines 228-229): the elements of
`a` then `b`, first occurrence kept.  CPython does not fix the order of this
list; the claims below only ever use its element set. -/
def pySetUnion (a b : List Tag) : List Tag := pyDedup (a ++ b)

/-- Lines 212-215: `allowed_inbounds = {protocol: [inbound.tag for inbound in
inbounds] for protocol, inbounds in configs.items()}`. -/
def allowedInbounds (configs : ProxyTypes → Option (List ProxyInbound)) : TagDict :=
  fun p => (configs p).map (fun l => l.map ProxyInbound.tag)

/-- Lines 219-224, the first per-user loop: for each protocol of
`user.inbounds` that is also in `allowed_inbounds`, keep only the tags still
allowed, and record the protocol only if some tag survives
(`if new_tags: new_inbounds[protocol] = new_tags`). -/
def carriedTags (allowed : TagDict) (u : User) (p : ProxyTypes) : Option (List Tag) :=
  match u.inbounds p, allowed p with
  | some tags, some atags =>
      let newTags := tags.filter (fun t => decide (t ∈ atags))
      if newTags.isEmpty then none else some newTags
  | _, _ => none

/-- Lines 219-232: the value of `new_inbounds` after the second per-user loop.
For every protocol of `allowed_inbounds`: if the first loop carried tags for
it, store `list(set(carried).union(allowed_tags))`, else store the allowed
tag list itself.  A protocol not in `allowed_inbounds` keeps whatever the
first loop put there (which is nothing, since the first loop only records
protocols present in `allowed_inbounds`). -/
def newInbounds (allowed : TagDict) (u : User) : TagDict := fun p =>
  match allowed p with
  | none => carriedTags allowed u p
  | some tags =>
      match carriedTags allowed u p with
      | some existing => some (pySetUnion existing tags)
      | none => some tags

/-- The Python dict comprehension `{p.type.value: p.settings for p in
user.proxies}` (lines 234-238 and 251): building a dict by iterating the
list, a later entry for the same key overwrites an earlier one. -/
def lastAssoc : List (ProxyTypes × Settings) → ProxyTypes → Option Settings
  | [], _ => none
  | (q, s) :: rest, p =>
      match lastAssoc rest p with
      | some s' => some s'
      | none => if q = p then some s else none

/-- The user's current settings dict `{p.type.value: p.settings for p in
user.proxies}` as recomputed at line 251. -/
def existingProxiesMap (u : User) : ProxyTypes → Option Settings :=
  lastAssoc u.proxies

/-- Lines 234-249: `new_proxies` — the user's existing settings restricted to
protocols of `new_inbounds` (lines 234-238), then a default payload for every
protocol of `new_inbounds` still lacking settings, by exhaustive cases on the
four protocols (lines 240-249). -/
def newProxies (allowed : TagDict) (u : User) : ProxyTypes → Option Settings := fun p =>
  if (newInbounds allowed u p).isSome then
    match existingProxiesMap u p with
    | some s => some s
    | none => some (defaultSettings p)
  else none

/-- Option-to-list coercion used to talk about "the tags of protocol `p`":
an absent protocol has no tags. -/
def tagsOf (o : Option (List Tag)) : List Tag := o.getD []

/-- Pointwise-decided equality of two protocol-keyed tag dicts: Python's
`new_inbounds != user.inbounds` at line 251 (negated). -/
def tagDictEq (f g : TagDict) : Bool :=
  allProtocols.all (fun p => decide (f p = g p))

/-- Pointwise-decided equality of two protocol-keyed settings dicts: Python's
`new_proxies != {p.type.value: p.settings for p in user.proxies}` at line 251
(negated). -/
def settingsDictEq (f g : ProxyTypes → Option Settings) : Bool :=
  allProtocols.all (fun p => decide (f p = g p))

/-- Line 251's change detection: the user is written back exactly when
`new_inbounds != user.inbounds or new_proxies != {…existing…}`. -/
def userChanged (allowed : TagDict) (u : User) : Bool :=
  !(tagDictEq (newInbounds allowed u) u.inbounds
      && settingsDictEq (newProxies allowed u) (existingProxiesMap u))

/-- Line 257: `user.status in [UserStatus.active, UserStatus.on_hold]`. -/
def statusTriggersPush (s : UserStatus) : Bool :=
  decide (s = UserStatus.active) || decide (s = UserStatus.on_hold)

/-- Materialize a settings dict back into a proxies row list (the stored
shape of `UserModify(proxies=new_proxies)` once persisted), one row per
present protocol. -/
def mapToList (m : ProxyTypes → Option Settings) : List (ProxyTypes × Settings) :=
  allProtocols.filterMap (fun p => (m p).map (fun s => (p, s)))

/-- The user as stored by a successful `crud.update_user(db, user,
UserModify(inbounds=new_inbounds, proxies=new_proxies))` at lines 252-255:
same identity and status, new inbounds and proxies. -/
def applyPatch (u : User) (ni : TagDict) (np : ProxyTypes → Option Settings) : User :=
  { u with inbounds := ni, proxies := mapToList np }

/-- The fully reconciled user: `applyPatch` at the computed `new_inbounds`
and `new_proxies`. -/
def reconcile (allowed : TagDict) (u : User) : User :=
  applyPatch u (newInbounds allowed u) (newProxies allowed u)

/-- Observable side effects of the per-user block of `sync_admin`:
`updated id` is a `crud.update_user` call that returned (lines 252-255),
`pushed id` is a `xray.operations.update_user` live-propagation call
(line 258), `rolledBack id` is the `db.rollback()` of the exception handler
(line 261). -/
inductive Event where
  | updated (id : Nat)
  | pushed (id : Nat)
  | rolledBack (id : Nat)
deriving DecidableEq, Repr

/-- The trivial failure oracle: no call fails. -/
def noFail : Nat → Bool := fun _ => false

/-- Lines 217-262, the body of the per-user loop, with two failure oracles
standing for the external collaborators: `uf u.id = true` means
`crud.update_user` raises for this user (a store error — nothing is
persisted), `pf u.id = true` means `xray.operations.update_user` raises.
Modelled from the spec: `crud.update_user` (outside `src/`) persists the
patch atomically for that single user before returning ("persist via the
external store's per-user update, which must be atomic for that single
user"), so a `db.rollback()` issued after it returns does not undo the
committed patch.

Returns the user's contribution to the `unsuccessful` counter, the list of
emitted events, and the user's final stored state. -/
def processUser (allowed : TagDict) (uf pf : Nat → Bool) (u : User) :
    Nat × List Event × User :=
  if userChanged allowed u then
    if uf u.id then
      -- update_user raised: caught at line 260, rollback, counter += 1
      (1, [Event.rolledBack u.id], u)
    else
      let u' := applyPatch u (newInbounds allowed u) (newProxies allowed u)
      if statusTriggersPush u'.status then
        if pf u'.id then
          -- live propagation raised after the persist: caught, rollback,
          -- counter += 1, but the committed patch stands
          (1, [Event.updated u.id, Event.pushed u'.id, Event.rolledBack u.id], u')
        else
          (0, [Event.updated u.id, Event.pushed u'.id], u')
      else
        (0, [Event.updated u.id], u')
  else
    -- change detection at line 251: no write, no push
    (0, [], u)

/-- Lines 217-262: the per-user loop of `sync_admin`, sequentially over the
users returned by `crud.get_users`.  Returns the `unsuccessful` counter, the
concatenated event trace, and the final stored state of every user. -/
def syncUsers (allowed : TagDict) (uf pf : Nat → Bool) :
    List User → Nat × List Event × List User
  | [] => (0, [], [])
  | u :: rest =>
      let r := processUser allowed uf pf u
      let rs := syncUsers allowed uf pf rest
      (r.1 + rs.1, r.2.1 ++ rs.2.1, r.2.2 :: rs.2.2)

/-- The response body of `sync_admin` (lines 264-268). -/
structure SyncReport where
  total : Nat
  success : Nat
  unsuccessful : Nat
deriving DecidableEq, Repr

/-- Lines 202-268: `sync_admin` over an already-fetched user list — runs the
per-user loop and assembles `{"total": len(users), "success": len(users) -
unsuccessful, "unsuccessful": unsuccessful}`. -/
def sync_admin (allowed : TagDict) (uf pf : Nat → Bool) (users : List User) :
    SyncReport × List Event × List User :=
  let r := syncUsers allowed uf pf users
  (⟨users.length, users.length - r.1, r.1⟩, r.2.1, r.2.2)

/-! ### The bulk-status endpoints and the fleet sweep (lines 139-166) -/

/-- A remote node as seen by the sweep: the router reads only its
`connected` flag (lines 148-149, 163-164). -/
structure Node where
  connected : Bool
deriving DecidableEq, Repr

/-- Observable side effects of a bulk-status endpoint, in emission order. -/
inductive FleetEvent where
  /-- the `crud.disable_all_active_users` / `crud.activate_all_disabled_users`
  call (lines 145, 160) -/
  | storeMutation
  /-- `xray.config.include_db_users()` (lines 146, 161), carrying the ids of
  the active users serialized into the startup configuration -/
  | buildConfig (activeIds : List Nat)
  /-- `xray.core.restart(startup_config)` (lines 147, 162) -/
  | localRestart
  /-- `xray.operations.restart_node(node_id, startup_config)` (lines 150,
  165); `ok` records whether the node's restart succeeded -/
  | nodeRestart (id : Nat) (ok : Bool)
deriving DecidableEq, Repr

/-- Modelled from the spec: `xray.operations.restart_node` (outside `src/`)
— "a failure to reach or restart an individual node is non-fatal — it is
recorded/skipped and the sweep continues with the remaining nodes", so a
per-node failure is absorbed and recorded rather than raised. -/
def restart_node (nf : Nat → Bool) (id : Nat) : FleetEvent :=
  FleetEvent.nodeRestart id (!(nf id))

/-- Lines 148-151 / 163-166: iterate a point-in-time snapshot
(`list(xray.nodes.items())`) of the node registry and restart each node
whose `connected` flag is true. -/
def nodeSweep (nf : Nat → Bool) : List (Nat × Node) → List FleetEvent
  | [] => []
  | (id, node) :: rest =>
      if node.connected then restart_node nf id :: nodeSweep nf rest
      else nodeSweep nf rest

/-- Modelled from the spec: `crud.disable_all_active_users` (outside `src/`)
— "flip every user under `admin` between disabled and active/on_hold":
every active user becomes disabled. -/
def disable_all_active_users (users : List User) : List User :=
  users.map (fun u =>
    if u.status = UserStatus.active then { u with status := UserStatus.disabled } else u)

/-- Modelled from the spec: `crud.activate_all_disabled_users` (outside
`src/`) — every disabled user becomes active. -/
def activate_all_disabled_users (users : List User) : List User :=
  users.map (fun u =>
    if u.status = UserStatus.disabled then { u with status := UserStatus.active } else u)

/-- Modelled from the spec: `xray.config.include_db_users` (outside `src/`)
— "serializes the full set of currently-active users into a startup
configuration"; the configuration is abstracted as the ids of the active
users it includes. -/
def include_db_users (users : List User) : List Nat :=
  (users.filter (fun u => decide (u.status = UserStatus.active))).map User.id

/-- Lines 139-166: the shared body of `disable_all_active_users` /
`activate_all_disabled_users` (selected by `activate`): the store-level bulk
status mutation, then `include_db_users`, then the local core restart
(`localOk = false` means `xray.core.restart` raises, which propagates and
fails the request after the store mutation has already happened), then the
sweep over the snapshot of the node registry.  Returns the mutated user list
and the emitted trace, or, on a fatal local-core failure, the mutated user
list alone. -/
def bulkSetStatus (activate : Bool) (users : List User) (localOk : Bool)
    (nodes : List (Nat × Node)) (nf : Nat → Bool) :
    Except (List User) (List User × List FleetEvent) :=
  let users' := if activate then activate_all_disabled_users users
                else disable_all_active_users users
  let cfg := include_db_users users'
  if localOk then
    Except.ok (users',
      [FleetEvent.storeMutation, FleetEvent.buildConfig cfg, FleetEvent.localRestart]
        ++ nodeSweep nf nodes)
  else
    Except.error users'

/-! ### Set/deduplication lemmas -/

theorem mem_pyDedupAux : ∀ (seen l : List Tag) (t : Tag),
    t ∈ pyDedupAux seen l ↔ t ∈ l ∧ t ∉ seen
  | seen, [], t => by simp [pyDedupAux]
  | seen, a :: ts, t => by
    simp only [pyDedupAux]
    by_cases ha : a ∈ seen
    · rw [if_pos ha, mem_pyDedupAux seen ts t]
      constructor
      · rintro ⟨h1, h2⟩; exact ⟨List.mem_cons_of_mem _ h1, h2⟩
      · rintro ⟨h1, h2⟩
        rcases List.mem_cons.mp h1 with h | h
        · subst h; exact absurd ha h2
        · exact ⟨h, h2⟩
    · rw [if_neg ha]
      constructor
      · intro h
        rcases List.mem_cons.mp h with rfl | h
        · exact ⟨List.mem_cons_self _ _, ha⟩
        · obtain ⟨h1, h2⟩ := (mem_pyDedupAux (a :: seen) ts t).mp h
          exact ⟨List.mem_cons_of_mem _ h1,
            fun hs => h2 (List.mem_cons_of_mem _ hs)⟩
      · rintro ⟨h1, h2⟩
        rcases List.mem_cons.mp h1 with rfl | h1
        · exact List.mem_cons_self _ _
        · by_cases hta : t = a
          · subst hta; exact List.mem_cons_self _ _
          · refine List.mem_cons_of_mem _
              ((mem_pyDedupAux (a :: seen) ts t).mpr ⟨h1, fun hs => ?_⟩)
            rcases List.mem_cons.mp hs with h | h
            · exact hta h
            · exact h2 h

theorem mem_pyDedup (l : List Tag) (t : Tag) : t ∈ pyDedup l ↔ t ∈ l := by
  simp [pyDedup, mem_pyDedupAux]

/-! ### Pointwise facts about the reconciliation computation -/

theorem carriedTags_none (allowed : TagDict) (u : User) (p : ProxyTypes)
    (h : allowed p = none) : carriedTags allowed u p = none := by
  cases hu : u.inbounds p <;> simp [carriedTags, h, hu]

theorem carriedTags_sub (allowed : TagDict) (u : User) (p : ProxyTypes)
    (atags l : List Tag) (ha : allowed p = some atags)
    (hc : carriedTags allowed u p = some l) :
    (∀ t ∈ l, t ∈ atags) ∧ l ≠ [] := by
  cases hu : u.inbounds p with
  | none => simp [carriedTags, hu] at hc
  | some tags =>
    simp only [carriedTags, hu, ha] at hc
    by_cases he : (tags.filter (fun t => decide (t ∈ atags))).isEmpty
    · rw [if_pos he] at hc; exact absurd hc (by simp)
    · rw [if_neg he] at hc
      obtain rfl : tags.filter (fun t => decide (t ∈ atags)) = l := by
        exact Option.some.inj hc
      constructor
      · intro t ht
        have := List.mem_filter.mp ht
        simpa using this.2
      · intro hnil
        rw [hnil] at he
        exact he rfl

theorem newInbounds_isSome (allowed : TagDict) (u : User) (p : ProxyTypes) :
    (newInbounds allowed u p).isSome = (allowed p).isSome := by
  cases ha : allowed p with
  | none => simp [newInbounds, ha, carriedTags_none allowed u p ha]
  | some tags => cases hc : carriedTags allowed u p <;> simp [newInbounds, ha, hc]

theorem newInbounds_none (allowed : TagDict) (u : User) (p : ProxyTypes)
    (h : allowed p = none) : newInbounds allowed u p = none := by
  simp [newInbounds, h, carriedTags_none allowed u p h]

theorem mem_newInbounds (allowed : TagDict) (u : User) (p : ProxyTypes)
    (tags : List Tag) (ha : allowed p = some tags) (t : Tag) :
    t ∈ tagsOf (newInbounds allowed u p) ↔ t ∈ tags := by
  cases hc : carriedTags allowed u p with
  | none => simp [newInbounds, ha, hc, tagsOf]
  | some ex =>
    have hsub := (carriedTags_sub allowed u p tags ex ha hc).1
    simp only [newInbounds, ha, hc, tagsOf, Option.getD_some, pySetUnion,
      mem_pyDedup, List.mem_append]
    constructor
    · rintro (h | h)
      · exact hsub t h
      · exact h
    · exact Or.inr

/-- The tag set of `new_inbounds` at each protocol equals the policy's tag
set there (both empty when the protocol is absent from the policy). -/
theorem tagsOf_newInbounds (allowed : TagDict) (u : User) (p : ProxyTypes) (t : Tag) :
    t ∈ tagsOf (newInbounds allowed u p) ↔ t ∈ tagsOf (allowed p) := by
  cases ha : allowed p with
  | none => simp [newInbounds_none allowed u p ha, tagsOf]
  | some tags => rw [mem_newInbounds allowed u p tags ha t]; simp [tagsOf, ha]

theorem newProxies_isSome (allowed : TagDict) (u : User) (p : ProxyTypes) :
    (newProxies allowed u p).isSome = (newInbounds allowed u p).isSome := by
  by_cases h : (newInbounds allowed u p).isSome = true
  · cases hm : existingProxiesMap u p <;> simp [newProxies, h, hm]
  · simp [newProxies, h, Bool.eq_false_iff.mpr h]

/-! ### Dict-equality and change-detection lemmas -/

theorem tagDictEq_iff (f g : TagDict) : tagDictEq f g = true ↔ ∀ p, f p = g p := by
  simp only [tagDictEq, List.all_eq_true, decide_eq_true_eq]
  exact ⟨fun h p => h p (mem_allProtocols p), fun h p _ => h p⟩

theorem settingsDictEq_iff (f g : ProxyTypes → Option Settings) :
    settingsDictEq f g = true ↔ ∀ p, f p = g p := by
  simp only [settingsDictEq, List.all_eq_true, decide_eq_true_eq]
  exact ⟨fun h p => h p (mem_allProtocols p), fun h p _ => h p⟩

theorem userChanged_eq_false_iff (allowed : TagDict) (u : User) :
    userChanged allowed u = false ↔
      ((∀ p, newInbounds allowed u p = u.inbounds p)
        ∧ (∀ p, newProxies allowed u p = existingProxiesMap u p)) := by
  simp only [userChanged, Bool.not_eq_false', Bool.and_eq_true,
    tagDictEq_iff, settingsDictEq_iff]

/-! ### The stored shape of a persisted patch -/

theorem lastAssoc_keys_mem (m : ProxyTypes → Option Settings)
    (ks : List ProxyTypes) (e : ProxyTypes × Settings)
    (he : e ∈ ks.filterMap (fun q => (m q).map (fun s => (q, s)))) : e.1 ∈ ks := by
  rcases List.mem_filterMap.mp he with ⟨a, ha, hfa⟩
  cases hma : m a with
  | none => rw [hma] at hfa; simp at hfa
  | some v =>
    rw [hma] at hfa
    simp only [Option.map_some'] at hfa
    obtain rfl := Option.some.inj hfa
    exact ha

theorem lastAssoc_eq_none (l : List (ProxyTypes × Settings)) (p : ProxyTypes)
    (h : ∀ e ∈ l, e.1 ≠ p) : lastAssoc l p = none := by
  induction l with
  | nil => rfl
  | cons e rest ih =>
    obtain ⟨q, s⟩ := e
    simp only [lastAssoc]
    rw [ih (fun e he => h e (List.mem_cons_of_mem _ he))]
    exact if_neg (h (q, s) (List.mem_cons_self _ _))

theorem lastAssoc_filterMap (m : ProxyTypes → Option Settings) :
    ∀ (ks : List ProxyTypes) (p : ProxyTypes), ks.Nodup → p ∈ ks →
    lastAssoc (ks.filterMap (fun q => (m q).map (fun s => (q, s)))) p = m p := by
  intro ks
  induction ks with
  | nil => intro p _ hp; exact absurd hp (by simp)
  | cons k ks' ih =>
    intro p hnd hp
    have hnone : p ∉ ks' → lastAssoc (ks'.filterMap
        (fun q => (m q).map (fun s => (q, s)))) p = none := by
      intro hnp
      refine lastAssoc_eq_none _ p (fun e he hep => ?_)
      exact hnp (hep ▸ lastAssoc_keys_mem m ks' e he)
    cases hmk : m k with
    | none =>
      simp only [List.filterMap_cons, hmk, Option.map_none']
      rcases List.mem_cons.mp hp with rfl | hp'
      · rw [hnone (List.nodup_cons.mp hnd).1]
        exact hmk.symm
      · exact ih p (List.nodup_cons.mp hnd).2 hp'
    | some s =>
      simp only [List.filterMap_cons, hmk, Option.map_some', lastAssoc]
      rcases List.mem_cons.mp hp with rfl | hp'
      · rw [hnone (List.nodup_cons.mp hnd).1]
        simp [hmk]
      · rw [ih p (List.nodup_cons.mp hnd).2 hp']
        cases hmp : m p with
        | none =>
          have hkp : k ≠ p := fun hkp => (List.nodup_cons.mp hnd).1 (hkp ▸ hp')
          simp [if_neg hkp]
        | some s' => rfl

theorem lastAssoc_mapToList (m : ProxyTypes → Option Settings) (p : ProxyTypes) :
    lastAssoc (mapToList m) p = m p :=
  lastAssoc_filterMap m allProtocols p (by decide) (mem_allProtocols p)

theorem existingProxiesMap_applyPatch (u : User) (ni : TagDict)
    (np : ProxyTypes → Option Settings) :
    existingProxiesMap (applyPatch u ni np) = np := by
  funext p
  exact lastAssoc_mapToList np p

/-! ### Structure of the per-user loop -/

@[simp] theorem applyPatch_inbounds (u : User) (ni : TagDict)
    (np : ProxyTypes → Option Settings) : (applyPatch u ni np).inbounds = ni := rfl

@[simp] theorem applyPatch_status (u : User) (ni : TagDict)
    (np : ProxyTypes → Option Settings) : (applyPatch u ni np).status = u.status := rfl

@[simp] theorem applyPatch_id (u : User) (ni : TagDict)
    (np : ProxyTypes → Option Settings) : (applyPatch u ni np).id = u.id := rfl

/-- The per-user state a successful sync leaves behind: the persisted patch
when the change detection fired, the untouched row otherwise. -/
def expectedFinal (allowed : TagDict) (u : User) : User :=
  if userChanged allowed u then reconcile allowed u else u

theorem reconcile_inbounds (allowed : TagDict) (u : User) :
    (reconcile allowed u).inbounds = newInbounds allowed u := rfl

theorem reconcile_proxiesMap (allowed : TagDict) (u : User) :
    existingProxiesMap (reconcile allowed u) = newProxies allowed u :=
  existingProxiesMap_applyPatch u _ _

/-- Branch-free restatement of `processUser`. -/
theorem processUser_eq (allowed : TagDict) (uf pf : Nat → Bool) (u : User) :
    processUser allowed uf pf u =
      if userChanged allowed u then
        if uf u.id then (1, [Event.rolledBack u.id], u)
        else if statusTriggersPush u.status then
          if pf u.id then
            (1, [Event.updated u.id, Event.pushed u.id, Event.rolledBack u.id],
             reconcile allowed u)
          else (0, [Event.updated u.id, Event.pushed u.id], reconcile allowed u)
        else (0, [Event.updated u.id], reconcile allowed u)
      else (0, [], u) := by
  simp only [processUser, reconcile, applyPatch_status, applyPatch_id]

theorem processUser_unchanged (allowed : TagDict) (uf pf : Nat → Bool) (u : User)
    (h : userChanged allowed u = false) :
    processUser allowed uf pf u = (0, [], u) := by
  rw [processUser_eq]
  simp [h]

/-- Whenever the store update does not fail, the user's final state is
`expectedFinal` — even if the subsequent live propagation fails, since the
per-user update was already committed. -/
theorem processUser_final (allowed : TagDict) (uf pf : Nat → Bool) (u : User)
    (h : uf u.id = false) :
    (processUser allowed uf pf u).2.2 = expectedFinal allowed u := by
  rw [processUser_eq]
  unfold expectedFinal
  by_cases hc : userChanged allowed u = true
  · simp only [hc, if_true, h, Bool.false_eq_true, if_false]
    by_cases hs : statusTriggersPush u.status = true
    · by_cases hp : pf u.id = true <;> simp [hs, hp]
    · simp [hs]
  · simp [hc]

/-- With neither oracle failing for this user, `processUser` succeeds and
emits the clean trace. -/
theorem processUser_noFail (allowed : TagDict) (uf pf : Nat → Bool) (u : User)
    (h1 : uf u.id = false) (h2 : pf u.id = false) :
    processUser allowed uf pf u =
      (0,
       (if userChanged allowed u then
          if statusTriggersPush u.status then [Event.updated u.id, Event.pushed u.id]
          else [Event.updated u.id]
        else []),
       expectedFinal allowed u) := by
  rw [processUser_eq]
  unfold expectedFinal
  by_cases hc : userChanged allowed u = true
  · by_cases hs : statusTriggersPush u.status = true <;>
      simp [hc, h1, h2, hs]
  · simp [hc]

theorem syncUsers_nil (allowed : TagDict) (uf pf : Nat → Bool) :
    syncUsers allowed uf pf [] = (0, [], []) := rfl

theorem syncUsers_cons (allowed : TagDict) (uf pf : Nat → Bool) (u : User)
    (rest : List User) :
    syncUsers allowed uf pf (u :: rest) =
      ((processUser allowed uf pf u).1 + (syncUsers allowed uf pf rest).1,
       (processUser allowed uf pf u).2.1 ++ (syncUsers allowed uf pf rest).2.1,
       (processUser allowed uf pf u).2.2 :: (syncUsers allowed uf pf rest).2.2) := rfl

theorem syncUsers_append (allowed : TagDict) (uf pf : Nat → Bool)
    (a b : List User) :
    syncUsers allowed uf pf (a ++ b) =
      ((syncUsers allowed uf pf a).1 + (syncUsers allowed uf pf b).1,
       (syncUsers allowed uf pf a).2.1 ++ (syncUsers allowed uf pf b).2.1,
       (syncUsers allowed uf pf a).2.2 ++ (syncUsers allowed uf pf b).2.2) := by
  induction a with
  | nil => simp [syncUsers_nil]
  | cons u a ih =>
    simp only [List.cons_append, syncUsers_cons, ih, Prod.mk.injEq]
    exact ⟨(Nat.add_assoc _ _ _).symm, (List.append_assoc _ _ _).symm, trivial⟩

/-- As long as the store oracle succeeds on every user of the batch, the
output rows are exactly the expected reconciled rows, in order. -/
theorem syncUsers_out_map (allowed : TagDict) (uf pf : Nat → Bool)
    (l : List User) (hf : ∀ u ∈ l, uf u.id = false) :
    (syncUsers allowed uf pf l).2.2 = l.map (expectedFinal allowed) := by
  induction l with
  | nil => rfl
  | cons u rest ih =>
    rw [syncUsers_cons, processUser_final allowed uf pf u (hf u (List.mem_cons_self _ _))]
    simp [ih (fun v hv => hf v (List.mem_cons_of_mem _ hv))]

/-- With no failures at all, the batch reports zero unsuccessful users. -/
theorem syncUsers_clean_count (allowed : TagDict) (uf pf : Nat → Bool)
    (l : List User) (hf : ∀ u ∈ l, uf u.id = false ∧ pf u.id = false) :
    (syncUsers allowed uf pf l).1 = 0 := by
  induction l with
  | nil => rfl
  | cons u rest ih =>
    obtain ⟨h1, h2⟩ := hf u (List.mem_cons_self _ _)
    rw [syncUsers_cons, processUser_noFail allowed uf pf u h1 h2]
    simpa using ih (fun v hv => hf v (List.mem_cons_of_mem _ hv))

theorem expectedFinal_inbounds (allowed : TagDict) (u : User) :
    (expectedFinal allowed u).inbounds = newInbounds allowed u := by
  unfold expectedFinal
  by_cases hc : userChanged allowed u = true
  · rw [if_pos hc]; rfl
  · rw [if_neg hc]
    funext p
    exact (((userChanged_eq_false_iff allowed u).mp (Bool.eq_false_iff.mpr hc)).1 p).symm

theorem expectedFinal_proxiesMap (allowed : TagDict) (u : User) :
    existingProxiesMap (expectedFinal allowed u) = newProxies allowed u := by
  unfold expectedFinal
  by_cases hc : userChanged allowed u = true
  · rw [if_pos hc]; exact reconcile_proxiesMap allowed u
  · rw [if_neg hc]
    funext p
    exact (((userChanged_eq_false_iff allowed u).mp (Bool.eq_false_iff.mpr hc)).2 p).symm

/-! ### Stability of the reconciliation under a repeated sync -/

/-- If a user's stored settings dict is already the output of a
reconciliation, recomputing `new_proxies` against the same policy returns
the stored dict unchanged: the key set is fixed by the policy alone
(`newProxies_isSome`/`newInbounds_isSome`), every existing payload is
retained verbatim, and no default is synthesized for a key that already has
a payload.  This holds with no assumption on tag-list order or duplication,
so it is insensitive to how CPython happens to order its sets. -/
theorem newProxies_stable (allowed : TagDict) (u u₂ : User)
    (hpr : existingProxiesMap u₂ = newProxies allowed u) :
    newProxies allowed u₂ = existingProxiesMap u₂ := by
  funext p
  have hsome : (newInbounds allowed u₂ p).isSome = (newProxies allowed u p).isSome := by
    rw [newInbounds_isSome, newProxies_isSome, newInbounds_isSome]
  by_cases h : (newInbounds allowed u₂ p).isSome = true
  · have hp2 : (newProxies allowed u p).isSome = true := by rw [← hsome]; exact h
    obtain ⟨s, hs⟩ := Option.isSome_iff_exists.mp hp2
    have hx : existingProxiesMap u₂ p = some s := by rw [hpr]; exact hs
    simp [newProxies, h, hx]
  · have h' : (newInbounds allowed u₂ p).isSome = false := Bool.eq_false_iff.mpr h
    have hp2 : newProxies allowed u p = none := by
      have hh : (newProxies allowed u p).isSome = false := by rw [← hsome]; exact h'
      exact Option.not_isSome_iff_eq_none.mp (by simp [hh])
    have hl : newProxies allowed u₂ p = none := by simp [newProxies, h]
    rw [hl, congrFun hpr p, hp2]

/-- A batch in which the change detection fires for nobody does nothing:
no unsuccessful users, an empty trace, untouched rows. -/
theorem syncUsers_unchanged (allowed : TagDict) (uf pf : Nat → Bool)
    (l : List User) (h : ∀ u ∈ l, userChanged allowed u = false) :
    syncUsers allowed uf pf l = (0, [], l) := by
  induction l with
  | nil => rfl
  | cons u rest ih =>
    rw [syncUsers_cons, processUser_unchanged allowed uf pf u (h u (List.mem_cons_self _ _)),
      ih (fun v hv => h v (List.mem_cons_of_mem _ hv))]
    rfl

/-- An event of a sync trace belongs to some user's per-user block. -/
theorem mem_syncUsers_trace (allowed : TagDict) (uf pf : Nat → Bool)
    (l : List User) (e : Event) :
    e ∈ (syncUsers allowed uf pf l).2.1 ↔
      ∃ v ∈ l, e ∈ (processUser allowed uf pf v).2.1 := by
  induction l with
  | nil => simp [syncUsers_nil]
  | cons u rest ih =>
    rw [syncUsers_cons]
    simp only [List.mem_append, ih]
    constructor
    · rintro (h | ⟨v, hv, he⟩)
      · exact ⟨u, List.mem_cons_self _ _, h⟩
      · exact ⟨v, List.mem_cons_of_mem _ hv, he⟩
    · rintro ⟨v, hv, he⟩
      rcases List.mem_cons.mp hv with rfl | hv'
      · exact Or.inl he
      · exact Or.inr ⟨v, hv', he⟩

/-- The id carried by an event. -/
def eventId : Event → Nat
  | .updated i => i
  | .pushed i => i
  | .rolledBack i => i

/-- Every event emitted by a user's per-user block carries that user's id. -/
theorem eventId_processUser (allowed : TagDict) (uf pf : Nat → Bool) (v : User)
    (e : Event) (he : e ∈ (processUser allowed uf pf v).2.1) : eventId e = v.id := by
  rw [processUser_eq] at he
  split at he
  · split at he
    · simp only [List.mem_singleton] at he; subst he; rfl
    · split at he
      · split at he
        · rcases List.mem_cons.mp he with rfl | he
          · rfl
          · rcases List.mem_cons.mp he with rfl | he
            · rfl
            · simp only [List.mem_singleton] at he; subst he; rfl
        · rcases List.mem_cons.mp he with rfl | he
          · rfl
          · simp only [List.mem_singleton] at he; subst he; rfl
      · simp only [List.mem_singleton] at he; subst he; rfl
  · simp at he

/-- Within one user's block, a push event occurs exactly when an update event
occurred and the user's status triggers propagation. -/
theorem pushed_iff_processUser (allowed : TagDict) (uf pf : Nat → Bool) (u : User) :
    (Event.pushed u.id ∈ (processUser allowed uf pf u).2.1) ↔
      ((Event.updated u.id ∈ (processUser allowed uf pf u).2.1) ∧
        statusTriggersPush u.status = true) := by
  rw [processUser_eq]
  by_cases hc : userChanged allowed u = true
  · by_cases h1 : uf u.id = true
    · simp [hc, h1]
    · by_cases hs : statusTriggersPush u.status = true
      · by_cases h2 : pf u.id = true <;> simp [hc, h1, hs, h2]
      · simp [hc, h1, hs]
  · simp [hc]

/-! ### Fleet sweep lemmas -/

/-- The node sweep visits exactly the connected nodes of the snapshot, in
snapshot order. -/
theorem nodeSweep_eq_filter_map (nf : Nat → Bool) (nodes : List (Nat × Node)) :
    nodeSweep nf nodes =
      (nodes.filter (fun q => q.2.connected)).map (fun q => restart_node nf q.1) := by
  induction nodes with
  | nil => rfl
  | cons e rest ih =>
    obtain ⟨id, node⟩ := e
    by_cases hc : node.connected = true <;>
      simp [nodeSweep, List.filter_cons, hc, ih]

/-- A node-restart event appears in the sweep trace exactly for the connected
nodes of the snapshot, with the outcome reported by the per-node oracle. -/
theorem mem_nodeSweep (nf : Nat → Bool) (nodes : List (Nat × Node))
    (id : Nat) (ok : Bool) :
    FleetEvent.nodeRestart id ok ∈ nodeSweep nf nodes ↔
      ∃ node : Node, (id, node) ∈ nodes ∧ node.connected = true ∧ ok = !(nf id) := by
  induction nodes with
  | nil => simp [nodeSweep]
  | cons e rest ih =>
    obtain ⟨i, node⟩ := e
    by_cases hc : node.connected = true
    · simp only [nodeSweep, if_pos hc, List.mem_cons, ih, restart_node,
        FleetEvent.nodeRestart.injEq]
      constructor
      · rintro (⟨rfl, rfl⟩ | ⟨n, hm, hcn, hok⟩)
        · exact ⟨node, Or.inl rfl, hc, rfl⟩
        · exact ⟨n, Or.inr hm, hcn, hok⟩
      · rintro ⟨n, hm, hcn, hok⟩
        rcases hm with heq | hm'
        · injection heq with e1 e2
          exact Or.inl ⟨e1, by rw [hok, e1]⟩
        · exact Or.inr ⟨n, hm', hcn, hok⟩
    · simp only [nodeSweep, if_neg hc, ih]
      constructor
      · rintro ⟨n, hm, hcn, hok⟩
        exact ⟨n, List.mem_cons_of_mem _ hm, hcn, hok⟩
      · rintro ⟨n, hm, hcn, hok⟩
        rcases List.mem_cons.mp hm with heq | hm'
        · injection heq with e1 e2
          exact absurd (e2 ▸ hcn) hc
        · exact ⟨n, hm', hcn, hok⟩

/-- The store mutation a bulk-status endpoint applies. -/
def bulkMutate (activate : Bool) (users : List User) : List User :=
  if activate then activate_all_disabled_users users
  else disable_all_active_users users

theorem bulkSetStatus_ok (activate : Bool) (users : List User)
    (nodes : List (Nat × Node)) (nf : Nat → Bool) :
    bulkSetStatus activate users true nodes nf =
      Except.ok (bulkMutate activate users,
        [FleetEvent.storeMutation,
         FleetEvent.buildConfig (include_db_users (bulkMutate activate users)),
         FleetEvent.localRestart] ++ nodeSweep nf nodes) := rfl

theorem bulkSetStatus_fatal (activate : Bool) (users : List User)
    (nodes : List (Nat × Node)) (nf : Nat → Bool) :
    bulkSetStatus activate users false nodes nf =
      Except.error (bulkMutate activate users) := rfl

theorem sync_admin_report (allowed : TagDict) (uf pf : Nat → Bool) (l : List User) :
    (sync_admin allowed uf pf l).1 =
      ⟨l.length, l.length - (syncUsers allowed uf pf l).1,
       (syncUsers allowed uf pf l).1⟩ := rfl

theorem sync_admin_trace (allowed : TagDict) (uf pf : Nat → Bool) (l : List User) :
    (sync_admin allowed uf pf l).2.1 = (syncUsers allowed uf pf l).2.1 := rfl

theorem sync_admin_out (allowed : TagDict) (uf pf : Nat → Bool) (l : List User) :
    (sync_admin allowed uf pf l).2.2 = (syncUsers allowed uf pf l).2.2 := rfl

/-! ### Concrete fixtures (the spec's §8 example scenario) -/

/-- The policy of the spec's example: `{VMess: ["tag1","tag2"]}`. -/
def egPolicy : TagDict := fun p =>
  match p with
  | ProxyTypes.VMess => some ["tag1", "tag2"]
  | _ => none

/-- The user of the spec's example: `inbounds = {VMess: ["tag1"], Trojan:
["tagX"]}`, settings payloads for VMess and Trojan. -/
def egUser : User :=
  { id := 7
    status := UserStatus.active
    inbounds := fun p =>
      match p with
      | ProxyTypes.VMess => some ["tag1"]
      | ProxyTypes.Trojan => some ["tagX"]
      | _ => none
    proxies := [(ProxyTypes.VMess, 5), (ProxyTypes.Trojan, 6)] }

/-- The example user as a no-failure sync stores it. -/
def egSynced : User := expectedFinal egPolicy egUser

theorem egSynced_mem :
    egSynced ∈ (sync_admin egPolicy noFail noFail [egUser]).2.2 := by
  have h : (sync_admin egPolicy noFail noFail [egUser]).2.2
      = [egUser].map (expectedFinal egPolicy) :=
    syncUsers_out_map egPolicy noFail noFail [egUser] (fun _ _ => rfl)
  rw [h]
  exact List.mem_singleton.mpr rfl

/-! ### The claims -/

/-- C1: for every user a sync free of store/push failures leaves behind, the
resulting inbounds dict has exactly the policy's protocols as keys (a
protocol is present after sync iff the policy names it — so every protocol
previously assigned but absent from the policy has been removed), and the
tag set at each protocol equals the policy's tag set for that protocol. -/
theorem C1_sync_grants_exactly_policy (allowed : TagDict) (users : List User)
    (u' : User) (h : u' ∈ (sync_admin allowed noFail noFail users).2.2)
    (p : ProxyTypes) :
    ((u'.inbounds p).isSome = (allowed p).isSome) ∧
      (∀ t, t ∈ tagsOf (u'.inbounds p) ↔ t ∈ tagsOf (allowed p)) := by
  have hout : (sync_admin allowed noFail noFail users).2.2
      = users.map (expectedFinal allowed) :=
    syncUsers_out_map allowed noFail noFail users (fun _ _ => rfl)
  rw [hout] at h
  rcases List.mem_map.mp h with ⟨u, _, rfl⟩
  rw [show (expectedFinal allowed u).inbounds p = newInbounds allowed u p from
    congrFun (expectedFinal_inbounds allowed u) p]
  exact ⟨newInbounds_isSome allowed u p, fun t => tagsOf_newInbounds allowed u p t⟩

theorem C1_witness :
    ((egSynced.inbounds ProxyTypes.VMess).isSome
        = (egPolicy ProxyTypes.VMess).isSome) ∧
      (∀ t, t ∈ tagsOf (egSynced.inbounds ProxyTypes.VMess)
        ↔ t ∈ tagsOf (egPolicy ProxyTypes.VMess)) :=
  C1_sync_grants_exactly_policy egPolicy [egUser] egSynced egSynced_mem
    ProxyTypes.VMess

/-- C2: for every user a sync free of store/push failures leaves behind,
every (protocol, tag) pair of that user's inbounds is present in the policy
supplied to the sync — no pair outside the policy survives or is
introduced. -/
theorem C2_policy_containment (allowed : TagDict) (users : List User)
    (u' : User) (h : u' ∈ (sync_admin allowed noFail noFail users).2.2)
    (p : ProxyTypes) (t : Tag) (ht : t ∈ tagsOf (u'.inbounds p)) :
    t ∈ tagsOf (allowed p) := by
  have hout : (sync_admin allowed noFail noFail users).2.2
      = users.map (expectedFinal allowed) :=
    syncUsers_out_map allowed noFail noFail users (fun _ _ => rfl)
  rw [hout] at h
  rcases List.mem_map.mp h with ⟨u, _, rfl⟩
  rw [show (expectedFinal allowed u).inbounds p = newInbounds allowed u p from
    congrFun (expectedFinal_inbounds allowed u) p] at ht
  exact (tagsOf_newInbounds allowed u p t).mp ht

theorem C2_witness : "tag2" ∈ tagsOf (egPolicy ProxyTypes.VMess) :=
  C2_policy_containment egPolicy [egUser] egSynced egSynced_mem
    ProxyTypes.VMess "tag2" (by decide)

/-- C3: for every user a sync free of store/push failures leaves behind, the
settings dict has a payload for a protocol iff the protocol is a key of the
user's inbounds — exactly one payload per inbound protocol, none for any
other protocol. -/
theorem C3_settings_keys_match_inbounds (allowed : TagDict) (users : List User)
    (u' : User) (h : u' ∈ (sync_admin allowed noFail noFail users).2.2)
    (p : ProxyTypes) :
    (existingProxiesMap u' p).isSome = (u'.inbounds p).isSome := by
  have hout : (sync_admin allowed noFail noFail users).2.2
      = users.map (expectedFinal allowed) :=
    syncUsers_out_map allowed noFail noFail users (fun _ _ => rfl)
  rw [hout] at h
  rcases List.mem_map.mp h with ⟨u, _, rfl⟩
  rw [show existingProxiesMap (expectedFinal allowed u) p = newProxies allowed u p from
      congrFun (expectedFinal_proxiesMap allowed u) p,
    show (expectedFinal allowed u).inbounds p = newInbounds allowed u p from
      congrFun (expectedFinal_inbounds allowed u) p]
  exact newProxies_isSome allowed u p

theorem C3_witness :
    (existingProxiesMap egSynced ProxyTypes.Trojan).isSome
      = (egSynced.inbounds ProxyTypes.Trojan).isSome :=
  C3_settings_keys_match_inbounds egPolicy [egUser] egSynced egSynced_mem
    ProxyTypes.Trojan

/-- C9: for every protocol retained in a user's new inbounds, an existing
settings payload is carried over unchanged into the stored result, and a
default payload is synthesized only when no settings entry existed for that
protocol. -/
theorem C9_settings_frame (allowed : TagDict) (u : User) (p : ProxyTypes)
    (hin : (newInbounds allowed u p).isSome = true) :
    (∀ s, existingProxiesMap u p = some s →
        existingProxiesMap (expectedFinal allowed u) p = some s) ∧
      (existingProxiesMap u p = none →
        existingProxiesMap (expectedFinal allowed u) p = some (defaultSettings p)) := by
  have h := congrFun (expectedFinal_proxiesMap allowed u) p
  constructor
  · intro s hs
    rw [h]
    simp [newProxies, hin, hs]
  · intro hs
    rw [h]
    simp [newProxies, hin, hs]

theorem C9_witness :
    ((newInbounds egPolicy egUser ProxyTypes.VMess).isSome = true) ∧
      (existingProxiesMap egUser ProxyTypes.VMess = some 5 →
        existingProxiesMap egSynced ProxyTypes.VMess = some 5) :=
  ⟨by decide,
   (C9_settings_frame egPolicy egUser ProxyTypes.VMess (by decide)).1 5⟩

/-- C5: if, during a sync, the store update raises for exactly one user (its
change detection fired and the store oracle fails for it, while the store
succeeds for every other user and no push fails), then that user's block
issues a rollback and leaves the user untouched, every other user is still
brought to its reconciled state, and the report is `total = N, success =
N - 1, unsuccessful = 1`. -/
theorem C5_isolation (allowed : TagDict) (uf : Nat → Bool)
    (pre post : List User) (ubad : User)
    (hch : userChanged allowed ubad = true) (hbad : uf ubad.id = true)
    (hpre : ∀ u ∈ pre, uf u.id = false) (hpost : ∀ u ∈ post, uf u.id = false) :
    (sync_admin allowed uf noFail (pre ++ ubad :: post)).1 =
        ⟨(pre ++ ubad :: post).length, (pre ++ ubad :: post).length - 1, 1⟩ ∧
      (sync_admin allowed uf noFail (pre ++ ubad :: post)).2.2 =
        pre.map (expectedFinal allowed) ++ ubad :: post.map (expectedFinal allowed) ∧
      Event.rolledBack ubad.id ∈
        (sync_admin allowed uf noFail (pre ++ ubad :: post)).2.1 := by
  have hbadp : processUser allowed uf noFail ubad =
      (1, [Event.rolledBack ubad.id], ubad) := by
    rw [processUser_eq]
    simp [hch, hbad]
  have hpre0 : (syncUsers allowed uf noFail pre).1 = 0 :=
    syncUsers_clean_count allowed uf noFail pre (fun u hu => ⟨hpre u hu, rfl⟩)
  have hpost0 : (syncUsers allowed uf noFail post).1 = 0 :=
    syncUsers_clean_count allowed uf noFail post (fun u hu => ⟨hpost u hu, rfl⟩)
  have hpreout := syncUsers_out_map allowed uf noFail pre hpre
  have hpostout := syncUsers_out_map allowed uf noFail post hpost
  have hsplit := syncUsers_append allowed uf noFail pre (ubad :: post)
  rw [syncUsers_cons, hbadp] at hsplit
  have hcount : (syncUsers allowed uf noFail (pre ++ ubad :: post)).1 = 1 := by
    rw [hsplit]
    simp [hpre0, hpost0]
  refine ⟨?_, ?_, ?_⟩
  · rw [sync_admin_report, hcount]
  · rw [sync_admin_out, hsplit]
    simp [hpreout, hpostout]
  · rw [sync_admin_trace, hsplit]
    simp

def wUserA : User :=
  { id := 1, status := UserStatus.active, inbounds := fun _ => none, proxies := [] }

def wUserB : User :=
  { id := 2, status := UserStatus.active, inbounds := fun _ => none, proxies := [] }

def wUserC : User :=
  { id := 3, status := UserStatus.active, inbounds := fun _ => none, proxies := [] }

/-- A store oracle that fails exactly for user id 2. -/
def wFailStore : Nat → Bool := fun id => id == 2

theorem C5_witness :
    (sync_admin egPolicy wFailStore noFail ([wUserA] ++ wUserB :: [wUserC])).1 =
        ⟨([wUserA] ++ wUserB :: [wUserC]).length,
         ([wUserA] ++ wUserB :: [wUserC]).length - 1, 1⟩ ∧
      (sync_admin egPolicy wFailStore noFail ([wUserA] ++ wUserB :: [wUserC])).2.2 =
        [wUserA].map (expectedFinal egPolicy)
          ++ wUserB :: [wUserC].map (expectedFinal egPolicy) ∧
      Event.rolledBack wUserB.id ∈
        (sync_admin egPolicy wFailStore noFail ([wUserA] ++ wUserB :: [wUserC])).2.1 :=
  C5_isolation egPolicy wFailStore [wUserA] [wUserC] wUserB (by decide) (by decide)
    (fun u hu => by rw [List.mem_singleton.mp hu]; rfl)
    (fun u hu => by rw [List.mem_singleton.mp hu]; rfl)

/-- C7: during sync, the live-propagation push for a user is invoked iff the
user's persist succeeded (an update event for the user is in the trace) and
the user's status is active or on_hold; in particular a disabled user never
triggers a push, whatever its change. -/
theorem C7_push_gating (allowed : TagDict) (uf pf : Nat → Bool)
    (users : List User) (hid : (users.map User.id).Nodup) (u : User)
    (hu : u ∈ users) :
    (Event.pushed u.id ∈ (sync_admin allowed uf pf users).2.1) ↔
      ((Event.updated u.id ∈ (sync_admin allowed uf pf users).2.1) ∧
        statusTriggersPush u.status = true) := by
  rw [sync_admin_trace, mem_syncUsers_trace, mem_syncUsers_trace]
  constructor
  · rintro ⟨v, hv, he⟩
    have hvid : u.id = v.id := eventId_processUser allowed uf pf v _ he
    have hvu : v = u := List.inj_on_of_nodup_map hid hv hu hvid.symm
    subst hvu
    have h2 := (pushed_iff_processUser allowed uf pf v).mp he
    exact ⟨⟨v, hv, h2.1⟩, h2.2⟩
  · rintro ⟨⟨v, hv, he⟩, hs⟩
    have hvid : u.id = v.id := eventId_processUser allowed uf pf v _ he
    have hvu : v = u := List.inj_on_of_nodup_map hid hv hu hvid.symm
    subst hvu
    exact ⟨v, hv, (pushed_iff_processUser allowed uf pf v).mpr ⟨he, hs⟩⟩

/-- A disabled user whose inbounds a sync against `egPolicy` does change. -/
def egDisabled : User :=
  { id := 9, status := UserStatus.disabled, inbounds := fun _ => none, proxies := [] }

theorem C7_witness :
    (Event.pushed egDisabled.id
        ∈ (sync_admin egPolicy noFail noFail [egDisabled]).2.1) ↔
      ((Event.updated egDisabled.id
          ∈ (sync_admin egPolicy noFail noFail [egDisabled]).2.1) ∧
        statusTriggersPush egDisabled.status = true) :=
  C7_push_gating egPolicy noFail noFail [egDisabled] (by decide) egDisabled
    (List.mem_singleton.mpr rfl)

/-- C10: when the live-propagation call raises after the user's update has
already been persisted (change detected, store update succeeded, status
triggers a push, the push oracle fails), the per-user handler catches it:
the sync over that user reports it unsuccessful and issues a rollback, even
though the trace shows the update happened and the user's stored state
carries the new inbounds and proxies. -/
theorem C10_push_failure_after_persist (allowed : TagDict) (uf pf : Nat → Bool)
    (u : User) (hch : userChanged allowed u = true) (huf : uf u.id = false)
    (hst : statusTriggersPush u.status = true) (hpf : pf u.id = true) :
    sync_admin allowed uf pf [u] =
      (⟨1, 0, 1⟩,
       [Event.updated u.id, Event.pushed u.id, Event.rolledBack u.id],
       [reconcile allowed u]) ∧
      (reconcile allowed u).inbounds = newInbounds allowed u ∧
      existingProxiesMap (reconcile allowed u) = newProxies allowed u := by
  refine ⟨?_, rfl, reconcile_proxiesMap allowed u⟩
  have hp : processUser allowed uf pf u =
      (1, [Event.updated u.id, Event.pushed u.id, Event.rolledBack u.id],
       reconcile allowed u) := by
    rw [processUser_eq]
    simp [hch, huf, hst, hpf]
  have hs : syncUsers allowed uf pf [u] =
      (1, [Event.updated u.id, Event.pushed u.id, Event.rolledBack u.id],
       [reconcile allowed u]) := by
    rw [syncUsers_cons, hp, syncUsers_nil]
    rfl
  simp [sync_admin, hs]

/-- A push oracle that fails exactly for user id 7 (`egUser`). -/
def wFailPush : Nat → Bool := fun id => id == 7

theorem C10_witness :
    sync_admin egPolicy noFail wFailPush [egUser] =
      (⟨1, 0, 1⟩,
       [Event.updated egUser.id, Event.pushed egUser.id,
        Event.rolledBack egUser.id],
       [reconcile egPolicy egUser]) ∧
      (reconcile egPolicy egUser).inbounds = newInbounds egPolicy egUser ∧
      existingProxiesMap (reconcile egPolicy egUser)
        = newProxies egPolicy egUser :=
  C10_push_failure_after_persist egPolicy noFail wFailPush egUser
    (by decide) rfl (by decide) (by decide)

/-- C6: in the rebuild-and-restart sweep of a bulk-status request, a failing
local core restart is fatal (the request errors out), while per-node restart
failures are not: whenever the local restart succeeds, the trace contains the
local restart and a restart event for every connected node, whatever the
per-node failure oracle says — so with three connected nodes of which one
fails, the local restart completes and the other two are still restarted. -/
theorem C6_fleet_failure_policy (activate : Bool) (users : List User)
    (nodes : List (Nat × Node)) (nf : Nat → Bool) :
    (∃ users', bulkSetStatus activate users false nodes nf
        = Except.error users') ∧
      (∀ users' trace,
        bulkSetStatus activate users true nodes nf = Except.ok (users', trace) →
          FleetEvent.localRestart ∈ trace ∧
            (∀ id node, (id, node) ∈ nodes → node.connected = true →
              FleetEvent.nodeRestart id (!(nf id)) ∈ trace)) := by
  constructor
  · exact ⟨bulkMutate activate users, bulkSetStatus_fatal activate users nodes nf⟩
  · intro users' trace hok
    rw [bulkSetStatus_ok] at hok
    injection hok with h
    injection h with h1 h2
    subst h1
    subst h2
    constructor
    · simp
    · intro id node hmem hconn
      exact List.mem_append.mpr
        (Or.inr ((mem_nodeSweep nf nodes id _).mpr ⟨node, hmem, hconn, rfl⟩))

/-- A snapshot with three connected nodes. -/
def egNodes : List (Nat × Node) := [(1, ⟨true⟩), (2, ⟨true⟩), (3, ⟨true⟩)]

/-- A per-node oracle under which only node 2's restart fails. -/
def egNodeFail : Nat → Bool := fun id => id == 2

/-- The trace of a successful bulk-status request over `egNodes`. -/
def egSweepTrace : List FleetEvent :=
  [FleetEvent.storeMutation,
   FleetEvent.buildConfig (include_db_users (bulkMutate false [])),
   FleetEvent.localRestart] ++ nodeSweep egNodeFail egNodes

theorem C6_witness :
    FleetEvent.localRestart ∈ egSweepTrace ∧
      FleetEvent.nodeRestart 1 true ∈ egSweepTrace ∧
      FleetEvent.nodeRestart 2 false ∈ egSweepTrace ∧
      FleetEvent.nodeRestart 3 true ∈ egSweepTrace := by
  have h := (C6_fleet_failure_policy false [] egNodes egNodeFail).2
    (bulkMutate false []) egSweepTrace rfl
  exact ⟨h.1, h.2 1 ⟨true⟩ (by decide) rfl, h.2 2 ⟨true⟩ (by decide) rfl,
    h.2 3 ⟨true⟩ (by decide) rfl⟩

/-- C8: a bulk-status endpoint emits, in order: the store-level bulk status
mutation, the startup-configuration build over all active users of the
mutated store, the local core restart, and then one restart per node of the
snapshot whose connected flag is true (in snapshot order); a node-restart
event exists for an id exactly when the snapshot holds a connected node with
that id. -/
theorem C8_bulk_status_order (activate : Bool) (users : List User)
    (nodes : List (Nat × Node)) (nf : Nat → Bool) :
    (bulkSetStatus activate users true nodes nf =
      Except.ok (bulkMutate activate users,
        [FleetEvent.storeMutation,
         FleetEvent.buildConfig (include_db_users (bulkMutate activate users)),
         FleetEvent.localRestart]
          ++ (nodes.filter (fun q => q.2.connected)).map
              (fun q => restart_node nf q.1))) ∧
      (∀ id ok, FleetEvent.nodeRestart id ok ∈ nodeSweep nf nodes ↔
        ∃ node, (id, node) ∈ nodes ∧ node.connected = true ∧ ok = !(nf id)) := by
  constructor
  · rw [bulkSetStatus_ok, nodeSweep_eq_filter_map]
  · exact fun id ok => mem_nodeSweep nf nodes id ok

/-- C4 (amended): a second sync with the same policy over the rows a
failure-free sync left behind reports `unsuccessful = 0` (its report is
`total = N, success = N, unsuccessful = 0`) and is semantically idempotent:
row for row, the second call's output keeps the same protocol key set, the
same tag set at every protocol, and the settings dict literally unchanged.
The second call may nonetheless perform store writes, because the recomputed
tag lists can differ from the stored ones in duplication or order (see the
counterexample); every conclusion here is stated in `isSome`/membership/
settings-dict terms, which are invariant under any realization of CPython's
set-iteration order, so none of it leans on this file's determinization of
`list(set(a).union(b))`. -/
theorem C4_second_sync_semantically_idempotent (allowed : TagDict)
    (users : List User) :
    (sync_admin allowed noFail noFail
        ((sync_admin allowed noFail noFail users).2.2)).1 =
      ⟨(sync_admin allowed noFail noFail users).2.2.length,
       (sync_admin allowed noFail noFail users).2.2.length, 0⟩ ∧
      List.Forall₂
        (fun u1 u2 =>
          (∀ p, (u2.inbounds p).isSome = (u1.inbounds p).isSome) ∧
            (∀ p t, t ∈ tagsOf (u2.inbounds p) ↔ t ∈ tagsOf (u1.inbounds p)) ∧
            existingProxiesMap u2 = existingProxiesMap u1)
        ((sync_admin allowed noFail noFail users).2.2)
        ((sync_admin allowed noFail noFail
          ((sync_admin allowed noFail noFail users).2.2)).2.2) := by
  have hout1 : (sync_admin allowed noFail noFail users).2.2
      = users.map (expectedFinal allowed) :=
    syncUsers_out_map allowed noFail noFail users (fun _ _ => rfl)
  constructor
  · rw [sync_admin_report,
      syncUsers_clean_count allowed noFail noFail _ (fun _ _ => ⟨rfl, rfl⟩)]
    rw [sync_admin_out, Nat.sub_zero]
  · rw [sync_admin_out allowed noFail noFail
        ((sync_admin allowed noFail noFail users).2.2),
      syncUsers_out_map allowed noFail noFail _ (fun _ _ => rfl),
      List.forall₂_map_right_iff, List.forall₂_same]
    intro u' hu'
    rw [hout1] at hu'
    rcases List.mem_map.mp hu' with ⟨u, _, rfl⟩
    refine ⟨?_, ?_, ?_⟩
    · intro p
      rw [congrFun (expectedFinal_inbounds allowed (expectedFinal allowed u)) p,
        newInbounds_isSome,
        congrFun (expectedFinal_inbounds allowed u) p, newInbounds_isSome]
    · intro p t
      rw [congrFun (expectedFinal_inbounds allowed (expectedFinal allowed u)) p,
        congrFun (expectedFinal_inbounds allowed u) p,
        tagsOf_newInbounds, tagsOf_newInbounds]
    · rw [expectedFinal_proxiesMap allowed (expectedFinal allowed u)]
      exact newProxies_stable allowed u (expectedFinal allowed u)
        (expectedFinal_proxiesMap allowed u)

/-- A policy whose VMess tag list contains a duplicate tag. -/
def dupPolicy : TagDict := fun p =>
  match p with
  | ProxyTypes.VMess => some ["t", "t"]
  | _ => none

/-- A user with no inbounds and no settings. -/
def dupUser : User :=
  { id := 0, status := UserStatus.active, inbounds := fun _ => none, proxies := [] }

/-- C4 as stated is false: with the policy `{VMess: ["t","t"]}` and a fresh
user, the first sync stores the raw tag list `["t","t"]`, and the second
sync recomputes `list(set(["t","t"]).union(["t","t"])) = ["t"]`, which
differs from the stored list, so the change detection fires and the second
call performs a store write (`update_user` is called again) — regardless of
how CPython happens to order its sets, since the two lists differ in
length. -/
theorem C4_counterexample :
    Event.updated 0 ∈
      (sync_admin dupPolicy noFail noFail
        ((sync_admin dupPolicy noFail noFail [dupUser]).2.2)).2.1 := by
  decide

end Marzban
